import Mathlib

/-!
Verification development for the `ranker-service` repository: a pairwise
judging scheduler with Elo and Glicko-2 rating updates.

The Rust source is shallowly embedded:
* `src/elo/algo.rs` — the Elo update (`calc_new_rating`, `calculate`),
  with `f64` arithmetic modelled exactly over `ℚ` (all constants involved,
  `400.0`, `30.0`, powers via `powi`, are exact in both systems);
* `src/glicko2/algo.rs` — the objective function `f` built inside
  `sigma_by_illinois`, modelled over `ℚ` with `x.exp()` abstracted as an
  explicit argument `ex` (the exponential itself is irrational, but every
  claim about `f` concerns only the rational arithmetic surrounding it);
* `src/scheduler.rs` — the scheduler state machine, the seeder, the match
  queue and the public operations, modelled as pure state-passing functions.
  The `rand` calls (the per-round `shuffle` and the continuous-phase
  `choose_multiple`) are passed in as explicit oracle arguments, and the
  `uuid::Uuid::new_v4()` fresh-id generation is modelled by a `next_id`
  counter (uuids are assumed never to collide).
-/

namespace RankerService

/-! ## Data model (src/scheduler.rs lines 39–84, src/glicko2/algo.rs lines 11–15) -/

/-- `enum MatchWinner { A, B }` (scheduler.rs:64–68). -/
inductive MatchWinner where
  | A
  | B
deriving DecidableEq

/-- `enum States { NoState, Init, Continuous, End }` (scheduler.rs:70–76). -/
inductive States where
  | NoState
  | Init
  | Continuous
  | End
deriving DecidableEq

/-- `struct Glicko2 { mu, sigma, phi: f64 }` (glicko2/algo.rs:11–15), with the
`f64` fields modelled over `ℚ`. -/
structure Glicko2 where
  mu : ℚ
  sigma : ℚ
  phi : ℚ
deriving DecidableEq

/-- `struct Item` (scheduler.rs:39–46); item ids (uuid strings) are modelled
as naturals. -/
structure Item where
  id : ℕ
  name : String
  location : String
  description : String
  score : Glicko2
deriving DecidableEq

instance : Inhabited Item := ⟨⟨0, "", "", "", ⟨0, 0, 0⟩⟩⟩

/-- `struct Judge { id, name }` (scheduler.rs:58–62). -/
structure Judge where
  id : ℕ
  name : String
deriving DecidableEq

/-- `struct MatchPair` (scheduler.rs:48–56).  `visit_count: i32` is modelled
as `ℤ`.  The extra ghost field `odd_seed_self` records provenance only: it is
set exactly on the pair formed at index `0` of a seed round whose item list
had odd length (the round in which `create_initial_matches` pads the shuffled
list with a duplicate of index 0, scheduler.rs:92–94).  No operation of the
model reads it; it lets invariants name those matches. -/
structure MatchPair where
  match_pair_id : ℕ
  i1 : ℕ
  i2 : ℕ
  visit_count : ℤ
  winner : Option MatchWinner
  judge_id : Option ℕ
  odd_seed_self : Bool
deriving DecidableEq

/-- `struct SchedulerState` (scheduler.rs:78–84).  The `DashMap` of items,
the `HashMap` of matches and the `DoublePriorityQueue` are modelled as
key-unique association lists; `next_id` is the model's source of fresh
match-pair uuids.  The source's `matches` field is named `match_store`
here because `matches` is a reserved token in Lean. -/
structure SchedulerState where
  current_state : States
  judges : List Judge
  items : List Item
  match_store : List MatchPair
  mq : List (ℕ × ℤ)
  next_id : ℕ
deriving DecidableEq

/-! ## Elo rating update (src/elo/algo.rs) -/

namespace Elo

/-- `enum Winner { P1, P2 }` (elo/algo.rs:1–4). -/
inductive Winner where
  | P1
  | P2
deriving DecidableEq

/-- `pub const K: f64 = 30.0` (elo/algo.rs:6). -/
def K : ℚ := 30

/-- `pub const INITIAL_ELO: f64 = 1000.0` (elo/algo.rs:8). -/
def INITIAL_ELO : ℚ := 1000

/-- `fn calc_new_rating` (elo/algo.rs:10–16). -/
def calc_new_rating (old_rating expected k : ℚ) (win : Bool) : ℚ :=
  if win then
    old_rating + k * (1 - expected)
  else
    old_rating + k * (0 - expected)

/-- `pub fn calculate` (elo/algo.rs:18–32).  Note the source's
`((r1 - r2) / 400.0).powi(10)` — the base-to-the-10th formulation — is kept
as written. -/
def calculate (r1 r2 k : ℚ) (winner : Winner) : ℚ × ℚ :=
  let p1 := 1 / (1 + ((r1 - r2) / 400) ^ (10 : ℕ))
  let p2 := 1 / (1 + ((r2 - r1) / 400) ^ (10 : ℕ))
  match winner with
  | Winner.P1 => (calc_new_rating r1 p1 k true, calc_new_rating r2 p2 k false)
  | Winner.P2 => (calc_new_rating r1 p1 k false, calc_new_rating r2 p2 k true)

end Elo

/-! ## The Illinois objective in `sigma_by_illinois` (src/glicko2/algo.rs:73–79)

The closure `f` reads, in the source,

  let t1 = x.exp() * (delta.powi(2) - phi.powi(2) - v - x.exp())
             / 2f64 * (phi.powi(2) + v + x.exp()).powi(2);
  let t2 = (x - a) / TAU.powi(2);
  t1 - t2

with `a = sigma.powi(2).ln()`.  By Rust's left-to-right precedence of `/`
and `*`, `t1` is `(e^x·(Δ² − φ² − v − e^x) / 2) · (φ² + v + e^x)²`: the
division applies to `2` alone and the squared term is a *factor*.  Both the
source term and the formula of spec §4.1 (which divides by the whole of
`2(φ² + v + e^x)²`) are modelled over `ℚ`, with `ex` standing for the value
of `x.exp()`. -/

/-- `const TAU: f64 = 0.5` (glicko2/algo.rs:1). -/
def TAU : ℚ := 1 / 2

/-- The term `t1 - t2` computed by the closure `f` of `sigma_by_illinois`
(glicko2/algo.rs:75–79), transcribed with Rust operator precedence:
`e / 2f64 * w.powi(2)` is `(e / 2) * w²`.  `phi`, `v`, `delta` are the
captured `g_cur.phi`, `v`, `delta`; `a = g_cur.sigma.powi(2).ln()`; `ex`
stands for `x.exp()`. -/
def illinois_f_code (phi v delta a x ex : ℚ) : ℚ :=
  ex * (delta ^ 2 - phi ^ 2 - v - ex) / 2 * (phi ^ 2 + v + ex) ^ 2
    - (x - a) / TAU ^ 2

/-- The objective stated by the spec (§4.1): the first term divides by
`2(φ² + v + e^x)²`. -/
def illinois_f_spec (phi v delta a x ex : ℚ) : ℚ :=
  ex * (delta ^ 2 - phi ^ 2 - v - ex) / (2 * (phi ^ 2 + v + ex) ^ 2)
    - (x - a) / TAU ^ 2

/-! ## Keyed association-list primitives

`DashMap::insert` / `HashMap::insert` / `DoublePriorityQueue::push` all
replace the entry of an existing key and add a new entry otherwise; lookups
are by key.  One generic primitive serves the three stores. -/

/-- Insert `a` into `l`, replacing the unique entry with the same key if one
exists and appending otherwise. -/
def insertKeyed (key : α → ℕ) : List α → α → List α
  | [], a => [a]
  | x :: xs, a => if key x = key a then a :: xs else x :: insertKeyed key xs a

/-- Look up the entry of `l` with key `i`. -/
def lookupKeyed (key : α → ℕ) (l : List α) (i : ℕ) : Option α :=
  l.find? (fun x => key x == i)

/-! ## The seeder (src/scheduler.rs:86–109) -/

/-- The body of one iteration of `create_initial_matches`'s outer loop works
on a shuffled copy `cc` of the competitors, padded with a duplicate of
index 0 when its length is odd (scheduler.rs:90–94).  This function is that
padding step, applied to the already-shuffled list. -/
def roundItems (l : List Item) : List Item :=
  if l.length % 2 = 0 then l else l ++ l.take 1

/-- One round of `create_initial_matches` (scheduler.rs:95–106): pair index
`i` of the padded shuffled list with index `len − 1 − i` for
`i ∈ [0, len/2)`.  `l` is the shuffled copy before padding; `base` is the
first fresh match id of the round (the source draws v4 uuids, modelled as
consecutive naturals assumed collision-free).  The ghost flag
`odd_seed_self` marks the `i = 0` pair of a round over an odd-length list,
which pairs index 0 with its own duplicate at the last index. -/
def seedRound (l : List Item) (base : ℕ) : List MatchPair :=
  let cc := roundItems l
  (List.range (cc.length / 2)).map (fun i =>
    { match_pair_id := base + i
      i1 := (cc.map Item.id).getD i 0
      i2 := (cc.map Item.id).getD (cc.length - 1 - i) 0
      visit_count := 0
      winner := none
      judge_id := none
      odd_seed_self := i == 0 && l.length % 2 == 1 })

/-- `fn create_initial_matches(competitors, n)` (scheduler.rs:86–109): `n`
rounds, each over an independently shuffled copy of the competitors.  The
shuffles of `rand::thread_rng` are abstracted as the oracle `shuffle`
(round number → input list → shuffled list); `base` is the first fresh
match id. -/
def create_initial_matches (competitors : List Item) (n : ℕ)
    (shuffle : ℕ → List Item → List Item) (base : ℕ) : List MatchPair :=
  (List.range n).flatMap (fun r =>
    seedRound (shuffle r competitors) (base + r * ((competitors.length + 1) / 2)))

/-! ## Scheduler operations (src/scheduler.rs:124–354) -/

namespace SchedulerState

/-- `SchedulerState::new()` (scheduler.rs:125–138). -/
def initial : SchedulerState :=
  { current_state := States.NoState
    judges := []
    items := []
    match_store := []
    mq := []
    next_id := 0 }

/-- `get_state` (scheduler.rs:177–181). -/
def get_state (s : SchedulerState) : States :=
  s.current_state

/-- `get_items` (scheduler.rs:192–199): a snapshot of the item store. -/
def get_items (s : SchedulerState) : List Item :=
  s.items

/-- `get_judges` (scheduler.rs:183–190). -/
def get_judges (s : SchedulerState) : List Judge :=
  s.judges

/-- `judge_match` (scheduler.rs:140–175).  The source records the winner on
the match and then calls `Glicko2::process_matches` on clones of both item
scores; `process_matches` is pure (it consumes `self` and *returns* the
updated `Glicko2`, glicko2/algo.rs:28–36) and both return values are
discarded, so the item store is left unchanged — the source's own comment at
scheduler.rs:153 says "does not actually update backing items array".  The
function returns `true` iff the match id is present. -/
def judge_match (s : SchedulerState) (_judge : Judge) (match_id : ℕ)
    (winner : MatchWinner) : Bool × SchedulerState :=
  match lookupKeyed MatchPair.match_pair_id s.match_store match_id with
  | some m =>
      (true,
        { s with match_store := s.match_store.map (fun x =>
            if x.match_pair_id == match_id then { m with winner := some winner } else x) })
  | none => (false, s)

/-- `state_machine_internal_transition` (scheduler.rs:201–225).  The
priority of the `peek_min` entry is the minimum of the queue's priorities,
so the source's `*p.1 < 1` test is the test on `(s.mq.map Prod.snd).min?`. -/
def state_machine_internal_transition (s : SchedulerState) : SchedulerState :=
  match s.current_state with
  | States.NoState => s
  | States.Init =>
      match (s.mq.map Prod.snd).min? with
      | none => s
      | some p => if p < 1 then s else { s with current_state := States.Continuous }
  | States.Continuous => s
  | States.End => s

/-- `seed_start` (scheduler.rs:231–255): guard on `NoState`, then build the
seed matches, push each into the queue at its `visit_count` (= 0) and insert
each into the match store, and move to `Init`. -/
def seed_start (s : SchedulerState) (n : ℕ)
    (shuffle : ℕ → List Item → List Item) : Bool × SchedulerState :=
  if s.current_state ≠ States.NoState then (false, s)
  else
    let ms := create_initial_matches s.items n shuffle s.next_id
    (true,
      { s with
        current_state := States.Init
        match_store := ms.foldl (insertKeyed MatchPair.match_pair_id) s.match_store
        mq := ms.foldl (fun q m => insertKeyed Prod.fst q (m.match_pair_id, m.visit_count)) s.mq
        next_id := s.next_id + n * ((s.items.length + 1) / 2) })

/-- `add_items` (scheduler.rs:257–262): insert each new item, keyed by id. -/
def add_items (s : SchedulerState) (new_items : List Item) : SchedulerState :=
  { s with items := new_items.foldl (insertKeyed Item.id) s.items }

/-- `add_judges` (scheduler.rs:264–267): append to the judges list. -/
def add_judges (s : SchedulerState) (new_judges : List Judge) : SchedulerState :=
  { s with judges := s.judges ++ new_judges }

end SchedulerState

/-- The relation between a queue and the result of `peek_min` on it
(`DoublePriorityQueue::peek_min`): `none` iff the queue is empty, otherwise
some entry of minimum priority (tie-break unspecified). -/
def IsPeekMin (q : List (ℕ × ℤ)) : Option (ℕ × ℤ) → Prop
  | none => q = []
  | some e => e ∈ q ∧ ∀ x ∈ q, e.2 ≤ x.2

namespace SchedulerState

/-- `get_from_queue` (scheduler.rs:283–304).  `e` is the entry returned by
`q.peek_min()` (constrained by `IsPeekMin` at every use). -/
def get_from_queue (s : SchedulerState) (e : Option (ℕ × ℤ)) (min_prio : ℤ) :
    Option (Except String MatchPair) :=
  match e with
  | some ke =>
      if min_prio < ke.2 then none
      else
        match lookupKeyed MatchPair.match_pair_id s.match_store ke.1 with
        | some m => some (Except.ok m)
        | none => some (Except.error "Match key not found")
  | none => some (Except.error "Could not peek queue")

/-- `get_continuous_stage` (scheduler.rs:306–333): serve from the queue when
`get_from_queue(1)` yields `Some(Ok(_))`; in every other case (minimum
priority above 1, empty queue, or a dangling queue key) synthesize a fresh
match over the items at positions `j` and `k` of the store snapshot —
`items.choose_multiple(rng, 2)` picks two *distinct positions*, abstracted
as the oracle `(j, k)` — insert it into the match store but not the queue,
and return it. -/
def get_continuous_stage (s : SchedulerState) (e : Option (ℕ × ℤ)) (j k : ℕ) :
    Except String MatchPair × SchedulerState :=
  match s.get_from_queue e 1 with
  | some (Except.ok m) => (Except.ok m, s)
  | _ =>
      let m : MatchPair :=
        { match_pair_id := s.next_id
          i1 := (s.items.map Item.id).getD j 0
          i2 := (s.items.map Item.id).getD k 0
          visit_count := 0
          winner := none
          judge_id := none
          odd_seed_self := false }
      (Except.ok m,
        { s with
          match_store := insertKeyed MatchPair.match_pair_id s.match_store m
          next_id := s.next_id + 1 })

/-- `find_next_match` (scheduler.rs:269–281).  In `Init` the source calls
`self.get_from_queue(0).unwrap()`; the `None` case of that `unwrap` (minimum
priority above 0 while still in `Init`) would panic and is modelled as an
error result. -/
def find_next_match (s : SchedulerState) (e : Option (ℕ × ℤ)) (j k : ℕ) :
    Except String MatchPair × SchedulerState :=
  match s.current_state with
  | States.NoState => (Except.error "Cannot get next match while in NONE state", s)
  | States.Init =>
      match s.get_from_queue e 0 with
      | some r => (r, s)
      | none => (Except.error "unreachable: unwrap of None", s)
  | States.Continuous => s.get_continuous_stage e j k
  | States.End => (Except.error "Cannot get next match while in END state", s)

/-- `q.change_priority_by(m_id, |i| *i += 1)` (scheduler.rs:346): bump the
priority of the entry with the given id, if present; no-op otherwise. -/
def change_priority_by (q : List (ℕ × ℤ)) (id : ℕ) : List (ℕ × ℤ) :=
  q.map (fun x => if x.1 == id then (x.1, x.2 + 1) else x)

/-- `give_judge_next_match` (scheduler.rs:335–353): run the internal
transition, find the candidate match, then bump its queue priority, stamp
the judge id and increment `visit_count` (the match lives in the store
behind `Arc<RwLock<_>>`, so the mutation is written through to the store). -/
def give_judge_next_match (s : SchedulerState) (judge : Judge)
    (e : Option (ℕ × ℤ)) (j k : ℕ) : Except String MatchPair × SchedulerState :=
  match (s.state_machine_internal_transition).find_next_match e j k with
  | (Except.ok m, s2) =>
      let m2 := { m with judge_id := some judge.id, visit_count := m.visit_count + 1 }
      (Except.ok m2,
        { s2 with
          mq := change_priority_by s2.mq m.match_pair_id
          match_store := s2.match_store.map (fun x =>
            if x.match_pair_id == m.match_pair_id then m2 else x) })
  | (Except.error err, s2) => (Except.error err, s2)

end SchedulerState

/-- The side condition on the continuous-phase random pick `(j, k)`: whenever
`find_next_match` will actually synthesize (state `Continuous` and the queue
probe yields no match), the two picked positions are valid and distinct —
exactly what `choose_multiple(rng, 2)` produces (and without which the
source's `choices[1]` would panic). -/
def SynthPickOk (s1 : SchedulerState) (e : Option (ℕ × ℤ)) (j k : ℕ) : Prop :=
  (s1.current_state = States.Continuous ∧
      ∀ m, s1.get_from_queue e 1 ≠ some (Except.ok m)) →
    j < s1.items.length ∧ k < s1.items.length ∧ j ≠ k

/-- The states reachable from `SchedulerState::new()` by the public
operations, with the random oracles (seed shuffles, peeked queue entries,
continuous picks) quantified per step. -/
inductive Reachable : SchedulerState → Prop where
  | initial : Reachable SchedulerState.initial
  | add_items (s : SchedulerState) (its : List Item) :
      Reachable s → Reachable (s.add_items its)
  | add_judges (s : SchedulerState) (js : List Judge) :
      Reachable s → Reachable (s.add_judges js)
  | seed_start (s : SchedulerState) (n : ℕ) (shuffle : ℕ → List Item → List Item) :
      Reachable s → (∀ r, (shuffle r s.items).Perm s.items) →
      Reachable (s.seed_start n shuffle).2
  | give (s : SchedulerState) (judge : Judge) (e : Option (ℕ × ℤ)) (j k : ℕ) :
      Reachable s → IsPeekMin s.mq e →
      SynthPickOk s.state_machine_internal_transition e j k →
      Reachable (s.give_judge_next_match judge e j k).2
  | judge (s : SchedulerState) (judge : Judge) (mid : ℕ) (w : MatchWinner) :
      Reachable s → Reachable (s.judge_match judge mid w).2

/-- The inductive invariant carried through every reachable state: key
uniqueness of the three stores, the queue→store correspondence (each queue
entry names a stored match whose `visit_count` is the entry's priority),
referential integrity of match item-ids, the characterisation of
self-matches (only the padded index-0 pair of an odd seed round), freshness
of the id counter, and emptiness of the stores in the `NoState` phase. -/
structure Inv (s : SchedulerState) : Prop where
  items_nodup : (s.items.map Item.id).Nodup
  store_nodup : (s.match_store.map MatchPair.match_pair_id).Nodup
  mq_nodup : (s.mq.map Prod.fst).Nodup
  mq_store : ∀ x ∈ s.mq, ∃ m ∈ s.match_store,
    m.match_pair_id = x.1 ∧ m.visit_count = x.2
  ref_items : ∀ m ∈ s.match_store,
    m.i1 ∈ s.items.map Item.id ∧ m.i2 ∈ s.items.map Item.id
  self_flag : ∀ m ∈ s.match_store, m.i1 = m.i2 → m.odd_seed_self = true
  fresh : ∀ m ∈ s.match_store, m.match_pair_id < s.next_id
  nostate_empty : s.current_state = States.NoState → s.match_store = [] ∧ s.mq = []

/-! ## Concrete executions

Small concrete runs of the model, used to exhibit reachable states for the
counterexamples and witnesses below.  `demoShuffle` is the identity shuffle
(a legal value of the shuffle oracle), `demoJudge` an arbitrary judge. -/

def demoShuffle : ℕ → List Item → List Item := fun _ l => l

def demoJudge : Judge := { id := 7, name := "J1" }

def itemOne : Item :=
  { id := 1, name := "Project 1", location := "a1", description := "cool project"
    score := ⟨0, 0, 0⟩ }

def itemTwo : Item :=
  { id := 2, name := "Project 2", location := "a1", description := "cool project"
    score := ⟨0, 0, 0⟩ }

def itemOdd : Item :=
  { id := 5, name := "Project 5", location := "a1", description := "cool project"
    score := ⟨0, 0, 0⟩ }

/-- Two items added to a fresh scheduler. -/
def dsAdd : SchedulerState := SchedulerState.initial.add_items [itemOne, itemTwo]

/-- ... then `seed_start(1)`: one seeded match (id 0) at priority 0. -/
def dsSeed : SchedulerState := (dsAdd.seed_start 1 demoShuffle).2

/-- ... then a first `give_judge_next_match` (serves match 0, priority 1). -/
def dsGive1 : SchedulerState :=
  (dsSeed.give_judge_next_match demoJudge (some (0, 0)) 0 0).2

/-- ... then a second give: the transition moves `Init → Continuous` (min
priority 1) and match 0 is served again from the queue (priority 2). -/
def dsGive2 : SchedulerState :=
  (dsGive1.give_judge_next_match demoJudge (some (0, 1)) 0 0).2

/-- ... then a third give: the queue minimum is now 2 > 1, so the continuous
stage synthesizes a fresh match (id 1) over the two items, inserting it into
the match store but not into the queue. -/
def dsGive3 : SchedulerState :=
  (dsGive2.give_judge_next_match demoJudge (some (0, 2)) 0 1).2

/-- One item (odd count) added and seeded: the seeder pads the singleton
round with a duplicate of index 0 and pairs it with itself. -/
def oddSeed : SchedulerState :=
  ((SchedulerState.initial.add_items [itemOdd]).seed_start 1 demoShuffle).2

/-! ## Theorems -/

/-! ### Toolkit: keyed association lists -/

theorem mem_of_mem_insertKeyed {α : Type*} {key : α → ℕ} {l : List α} {a x : α}
    (h : x ∈ insertKeyed key l a) : x ∈ l ∨ x = a := by
  induction l with
  | nil => simpa [insertKeyed] using h
  | cons y ys ih =>
    by_cases hk : key y = key a
    · rcases (by simpa [insertKeyed, hk] using h : x = a ∨ x ∈ ys) with h1 | h1
      · exact Or.inr h1
      · exact Or.inl (List.mem_cons_of_mem _ h1)
    · rcases (by simpa [insertKeyed, hk] using h : x = y ∨ x ∈ insertKeyed key ys a)
        with h1 | h1
      · exact Or.inl (by simp [h1])
      · rcases ih h1 with h2 | h2
        · exact Or.inl (List.mem_cons_of_mem _ h2)
        · exact Or.inr h2

theorem mem_map_key_insertKeyed {α : Type*} {key : α → ℕ} {l : List α} {a : α} {b : ℕ} :
    b ∈ (insertKeyed key l a).map key ↔ b ∈ l.map key ∨ b = key a := by
  induction l with
  | nil => simp [insertKeyed]
  | cons y ys ih =>
    by_cases hk : key y = key a
    · simp only [insertKeyed, if_pos hk, List.map_cons, List.mem_cons]
      constructor
      · rintro (h1 | h1)
        · exact Or.inr h1
        · exact Or.inl (Or.inr h1)
      · rintro ((h1 | h1) | h1)
        · exact Or.inl (by rw [h1, hk])
        · exact Or.inr h1
        · exact Or.inl h1
    · simp only [insertKeyed, if_neg hk, List.map_cons, List.mem_cons, ih]
      tauto

theorem nodup_map_insertKeyed {α : Type*} {key : α → ℕ} {l : List α} {a : α}
    (h : (l.map key).Nodup) : ((insertKeyed key l a).map key).Nodup := by
  induction l with
  | nil => simp [insertKeyed]
  | cons y ys ih =>
    simp only [List.map_cons, List.nodup_cons] at h
    by_cases hk : key y = key a
    · simp only [insertKeyed, if_pos hk, List.map_cons, List.nodup_cons]
      exact ⟨hk ▸ h.1, h.2⟩
    · simp only [insertKeyed, if_neg hk, List.map_cons, List.nodup_cons]
      refine ⟨?_, ih h.2⟩
      intro hc
      rcases mem_map_key_insertKeyed.mp hc with hc | hc
      · exact h.1 hc
      · exact hk hc

theorem insertKeyed_eq_append {α : Type*} {key : α → ℕ} {l : List α} {a : α}
    (h : key a ∉ l.map key) : insertKeyed key l a = l ++ [a] := by
  induction l with
  | nil => rfl
  | cons y ys ih =>
    simp only [List.map_cons, List.mem_cons, not_or] at h
    simp only [insertKeyed]
    rw [if_neg (Ne.symm h.1)]
    simp only [List.cons_append, List.cons.injEq, true_and]
    exact ih h.2

theorem lookupKeyed_eq_some {α : Type*} {key : α → ℕ} {l : List α} {i : ℕ} {m : α}
    (h : lookupKeyed key l i = some m) : m ∈ l ∧ key m = i :=
  ⟨List.mem_of_find?_eq_some h, by simpa using List.find?_some h⟩

theorem lookupKeyed_isSome_of_mem {α : Type*} {key : α → ℕ} {l : List α} {i : ℕ}
    (h : i ∈ l.map key) : (lookupKeyed key l i).isSome := by
  rw [lookupKeyed, List.find?_isSome]
  rcases List.mem_map.mp h with ⟨x, hx, hkx⟩
  exact ⟨x, hx, by simp [hkx]⟩

theorem mem_unique_of_nodup_keys {α : Type*} {key : α → ℕ} {l : List α} {a b : α}
    (h : (l.map key).Nodup) (ha : a ∈ l) (hb : b ∈ l) (hk : key a = key b) :
    a = b := by
  induction l with
  | nil => cases ha
  | cons y ys ih =>
    simp only [List.map_cons, List.nodup_cons] at h
    rcases List.mem_cons.mp ha with rfl | ha' <;> rcases List.mem_cons.mp hb with rfl | hb'
    · rfl
    · exact absurd (by rw [hk]; exact List.mem_map_of_mem _ hb') h.1
    · exact absurd (by rw [← hk]; exact List.mem_map_of_mem _ ha') h.1
    · exact ih h.2 ha' hb'

theorem foldl_insertKeyed_nodup {α : Type*} {key : α → ℕ} (ms : List α) {l : List α}
    (h : (l.map key).Nodup) : ((ms.foldl (insertKeyed key) l).map key).Nodup := by
  induction ms generalizing l with
  | nil => simpa using h
  | cons m ms ih => exact ih (nodup_map_insertKeyed h)

theorem mem_map_key_foldl_insertKeyed {α : Type*} {key : α → ℕ} (ms : List α)
    {l : List α} {b : ℕ} (h : b ∈ l.map key) :
    b ∈ (ms.foldl (insertKeyed key) l).map key := by
  induction ms generalizing l with
  | nil => simpa using h
  | cons m ms ih => exact ih (mem_map_key_insertKeyed.mpr (Or.inl h))

theorem foldl_insertKeyed_eq_append {α : Type*} {key : α → ℕ} (ms : List α)
    (l : List α) (hfresh : ∀ m ∈ ms, key m ∉ l.map key)
    (hnd : (ms.map key).Nodup) :
    ms.foldl (insertKeyed key) l = l ++ ms := by
  induction ms generalizing l with
  | nil => simp
  | cons m ms ih =>
    simp only [List.map_cons, List.nodup_cons] at hnd
    simp only [List.foldl_cons]
    rw [insertKeyed_eq_append (hfresh m (List.mem_cons_self m ms))]
    rw [ih (l ++ [m]) ?_ hnd.2]
    · simp
    · intro x hx
      simp only [List.map_append, List.mem_append, List.map_cons, List.map_nil,
        List.mem_singleton, not_or]
      exact ⟨hfresh x (List.mem_cons_of_mem m hx),
        fun hc => hnd.1 (hc ▸ List.mem_map_of_mem _ hx)⟩

theorem foldl_insertKeyed_map_eq_append {α β : Type*} {key : α → ℕ} (f : β → α)
    (ms : List β) (l : List α) (hfresh : ∀ m ∈ ms, key (f m) ∉ l.map key)
    (hnd : ((ms.map f).map key).Nodup) :
    ms.foldl (fun q m => insertKeyed key q (f m)) l = l ++ ms.map f := by
  induction ms generalizing l with
  | nil => simp
  | cons m ms ih =>
    simp only [List.map_cons, List.nodup_cons] at hnd
    simp only [List.foldl_cons]
    rw [insertKeyed_eq_append (hfresh m (List.mem_cons_self m ms))]
    rw [ih (l ++ [f m]) ?_ hnd.2]
    · simp
    · intro x hx
      simp only [List.map_append, List.mem_append, List.map_cons, List.map_nil,
        List.mem_singleton, not_or]
      exact ⟨hfresh x (List.mem_cons_of_mem m hx),
        fun hc => hnd.1 (hc ▸ List.mem_map_of_mem _ (List.mem_map_of_mem f hx))⟩

theorem map_key_update {α : Type*} {key : α → ℕ} (l : List α) (i : ℕ) (b : α)
    (hb : key b = i) :
    ((l.map (fun x => if key x == i then b else x)).map key) = l.map key := by
  rw [List.map_map]
  apply List.map_congr_left
  intro x _
  by_cases h : key x = i <;> simp [h, hb]

theorem mem_update {α : Type*} {key : α → ℕ} {l : List α} {i : ℕ} {b x : α}
    (h : x ∈ l.map (fun y => if key y == i then b else y)) : x ∈ l ∨ x = b := by
  rcases List.mem_map.mp h with ⟨y, hy, rfl⟩
  by_cases hk : key y = i
  · right
    simp [hk]
  · left
    simpa [beq_eq_false_iff_ne.mpr hk] using hy

theorem update_mem_of_mem {α : Type*} {key : α → ℕ} {l : List α} {i : ℕ} {b y : α}
    (hy : y ∈ l) (hk : key y ≠ i) :
    y ∈ l.map (fun x => if key x == i then b else x) := by
  have := List.mem_map_of_mem (fun x => if key x == i then b else x) hy
  simpa [beq_eq_false_iff_ne.mpr hk] using this

theorem update_mem_self {α : Type*} {key : α → ℕ} {l : List α} {i : ℕ} {b y : α}
    (hy : y ∈ l) (hk : key y = i) :
    b ∈ l.map (fun x => if key x == i then b else x) := by
  have := List.mem_map_of_mem (fun x => if key x == i then b else x) hy
  simpa [hk] using this

theorem change_priority_map_fst (q : List (ℕ × ℤ)) (i : ℕ) :
    (SchedulerState.change_priority_by q i).map Prod.fst = q.map Prod.fst := by
  unfold SchedulerState.change_priority_by
  rw [List.map_map]
  apply List.map_congr_left
  intro x _
  by_cases h : x.1 = i <;> simp [h]

theorem mem_change_priority {q : List (ℕ × ℤ)} {i : ℕ} {x : ℕ × ℤ}
    (h : x ∈ SchedulerState.change_priority_by q i) :
    ∃ y ∈ q, x = if y.1 == i then (y.1, y.2 + 1) else y := by
  unfold SchedulerState.change_priority_by at h
  rcases List.mem_map.mp h with ⟨y, hy, rfl⟩
  exact ⟨y, hy, rfl⟩

theorem getD_inj_of_nodup {l : List ℕ} (h : l.Nodup) {i j d : ℕ}
    (hi : i < l.length) (hj : j < l.length) (he : l.getD i d = l.getD j d) :
    i = j := by
  rw [List.getD_eq_getElem l d hi, List.getD_eq_getElem l d hj] at he
  have h2 : l.get ⟨i, hi⟩ = l.get ⟨j, hj⟩ := by
    simpa [List.get_eq_getElem] using he
  have h3 := (h.get_inj_iff).mp h2
  simpa using h3

theorem getD_append_left {l t : List ℕ} {n d : ℕ} (h : n < l.length) :
    (l ++ t).getD n d = l.getD n d := by
  rw [List.getD_eq_getElem (l ++ t) d (by simp; omega),
    List.getD_eq_getElem l d h, List.getElem_append]
  rw [dif_pos h]

/-! ### Toolkit: the seeder -/

theorem roundItems_length (l : List Item) :
    (roundItems l).length = 2 * ((l.length + 1) / 2) := by
  unfold roundItems
  by_cases h : l.length % 2 = 0
  · rw [if_pos h]
    omega
  · rw [if_neg h]
    rw [List.length_append, List.length_take, Nat.min_eq_left (by omega)]
    omega

theorem mem_roundItems {l : List Item} {x : Item} (h : x ∈ roundItems l) : x ∈ l := by
  unfold roundItems at h
  by_cases h2 : l.length % 2 = 0
  · rwa [if_pos h2] at h
  · rw [if_neg h2] at h
    rcases List.mem_append.mp h with h | h
    · exact h
    · exact List.take_subset _ _ h

theorem mem_map_id_roundItems {l : List Item} {x : ℕ}
    (h : x ∈ (roundItems l).map Item.id) : x ∈ l.map Item.id := by
  rcases List.mem_map.mp h with ⟨it, hit, rfl⟩
  exact List.mem_map_of_mem _ (mem_roundItems hit)

theorem seedRound_length (l : List Item) (base : ℕ) :
    (seedRound l base).length = (l.length + 1) / 2 := by
  unfold seedRound
  rw [List.length_map, List.length_range, roundItems_length]
  omega

theorem seedRound_map_id (l : List Item) (base : ℕ) :
    (seedRound l base).map MatchPair.match_pair_id =
      (List.range ((l.length + 1) / 2)).map (fun i => base + i) := by
  unfold seedRound
  rw [List.map_map]
  have h : (roundItems l).length / 2 = (l.length + 1) / 2 := by
    rw [roundItems_length]
    omega
  rw [h]
  rfl

theorem mem_seedRound {l : List Item} {base : ℕ} {m : MatchPair}
    (h : m ∈ seedRound l base) :
    ∃ i < (roundItems l).length / 2,
      m = { match_pair_id := base + i
            i1 := ((roundItems l).map Item.id).getD i 0
            i2 := ((roundItems l).map Item.id).getD ((roundItems l).length - 1 - i) 0
            visit_count := 0
            winner := none
            judge_id := none
            odd_seed_self := i == 0 && l.length % 2 == 1 } := by
  unfold seedRound at h
  rcases List.mem_map.mp h with ⟨i, hi, rfl⟩
  exact ⟨i, List.mem_range.mp hi, rfl⟩

theorem seedRound_fields {l : List Item} {base : ℕ} {m : MatchPair}
    (h : m ∈ seedRound l base) :
    m.visit_count = 0 ∧ m.winner = none ∧ m.judge_id = none := by
  rcases mem_seedRound h with ⟨i, _, rfl⟩
  exact ⟨rfl, rfl, rfl⟩

theorem seedRound_id_range {l : List Item} {base : ℕ} {m : MatchPair}
    (h : m ∈ seedRound l base) :
    base ≤ m.match_pair_id ∧ m.match_pair_id < base + (l.length + 1) / 2 := by
  rcases mem_seedRound h with ⟨i, hi, rfl⟩
  have h2 := roundItems_length l
  constructor
  · show base ≤ base + i
    omega
  · show base + i < base + (l.length + 1) / 2
    omega

theorem seedRound_ref {l : List Item} {base : ℕ} {m : MatchPair}
    (h : m ∈ seedRound l base) :
    m.i1 ∈ l.map Item.id ∧ m.i2 ∈ l.map Item.id := by
  rcases mem_seedRound h with ⟨i, hi, rfl⟩
  have h2 := roundItems_length l
  have hC : 2 ≤ (roundItems l).length := by omega
  have hi1 : i < ((roundItems l).map Item.id).length := by
    rw [List.length_map]
    omega
  have hi2 : (roundItems l).length - 1 - i < ((roundItems l).map Item.id).length := by
    rw [List.length_map]
    omega
  constructor
  · apply mem_map_id_roundItems
    simp only
    rw [List.getD_eq_getElem _ _ hi1]
    exact List.getElem_mem hi1
  · apply mem_map_id_roundItems
    simp only
    rw [List.getD_eq_getElem _ _ hi2]
    exact List.getElem_mem hi2

theorem seedRound_self_flag {l : List Item} {base : ℕ} {m : MatchPair}
    (hn : (l.map Item.id).Nodup) (h : m ∈ seedRound l base)
    (he : m.i1 = m.i2) : m.odd_seed_self = true := by
  rcases mem_seedRound h with ⟨i, hi, rfl⟩
  simp only at he ⊢
  by_cases hodd : l.length % 2 = 0
  · exfalso
    have hr : roundItems l = l := by
      unfold roundItems
      rw [if_pos hodd]
    rw [hr] at hi he
    have hL1 : i < (l.map Item.id).length := by
      rw [List.length_map]
      omega
    have hL2 : l.length - 1 - i < (l.map Item.id).length := by
      rw [List.length_map]
      omega
    have := getD_inj_of_nodup hn hL1 hL2 he
    rw [List.length_map] at hL1 hL2
    omega
  · have hodd1 : l.length % 2 = 1 := by omega
    by_cases hz : i = 0
    · subst hz
      rw [hodd1]
      rfl
    · exfalso
      have hpos : 1 ≤ l.length := by omega
      have hr : roundItems l = l ++ l.take 1 := by
        unfold roundItems
        rw [if_neg (by omega)]
      have hC : (roundItems l).length = l.length + 1 := by
        rw [hr, List.length_append, List.length_take, Nat.min_eq_left hpos]
      rw [hC] at hi
      rw [hC, hr] at he
      have hidx : l.length + 1 - 1 - i = l.length - i := by omega
      rw [hidx, List.map_append] at he
      rw [getD_append_left (by rw [List.length_map]; omega)] at he
      rw [getD_append_left (by rw [List.length_map]; omega)] at he
      have := getD_inj_of_nodup hn (by rw [List.length_map]; omega)
        (by rw [List.length_map]; omega) he
      omega

/-! ### Toolkit: `create_initial_matches` -/

theorem cim_split (items : List Item) (n : ℕ)
    (shuffle : ℕ → List Item → List Item) (base : ℕ) :
    create_initial_matches items (n + 1) shuffle base =
      create_initial_matches items n shuffle base ++
        seedRound (shuffle n items) (base + n * ((items.length + 1) / 2)) := by
  unfold create_initial_matches
  rw [List.range_succ]
  simp

theorem cim_map_id (items : List Item) (n : ℕ)
    (shuffle : ℕ → List Item → List Item) (base : ℕ)
    (hp : ∀ r, (shuffle r items).Perm items) :
    (create_initial_matches items n shuffle base).map MatchPair.match_pair_id =
      (List.range (n * ((items.length + 1) / 2))).map (fun i => base + i) := by
  induction n with
  | zero => simp [create_initial_matches]
  | succ n ih =>
    have hlen : (shuffle n items).length = items.length := (hp n).length_eq
    rw [cim_split, List.map_append, ih, seedRound_map_id, hlen]
    rw [Nat.succ_mul, List.range_add, List.map_append, List.map_map]
    congr 1
    apply List.map_congr_left
    intro x _
    simp only [Function.comp_apply]
    omega

theorem cim_length (items : List Item) (n : ℕ)
    (shuffle : ℕ → List Item → List Item) (base : ℕ)
    (hp : ∀ r, (shuffle r items).Perm items) :
    (create_initial_matches items n shuffle base).length =
      n * ((items.length + 1) / 2) := by
  have h := congrArg List.length (cim_map_id items n shuffle base hp)
  simpa using h

theorem mem_cim {items : List Item} {n : ℕ}
    {shuffle : ℕ → List Item → List Item} {base : ℕ} {m : MatchPair}
    (hm : m ∈ create_initial_matches items n shuffle base) :
    ∃ r < n, m ∈ seedRound (shuffle r items) (base + r * ((items.length + 1) / 2)) := by
  unfold create_initial_matches at hm
  rcases List.mem_flatMap.mp hm with ⟨r, hr, hmr⟩
  exact ⟨r, List.mem_range.mp hr, hmr⟩

/-! ### Toolkit: invariant preservation -/

theorem self_mem_insertKeyed {α : Type*} {key : α → ℕ} {l : List α} {a : α} :
    a ∈ insertKeyed key l a := by
  induction l with
  | nil => exact List.mem_singleton.mpr rfl
  | cons y ys ih =>
    by_cases hk : key y = key a
    · simp [insertKeyed, hk]
    · simp only [insertKeyed, if_neg hk]
      exact List.mem_cons_of_mem _ ih

theorem transition_state_or (s : SchedulerState) :
    s.state_machine_internal_transition = s ∨
    s.state_machine_internal_transition = { s with current_state := States.Continuous } := by
  obtain ⟨cs, js, its, ms, q, nid⟩ := s
  unfold SchedulerState.state_machine_internal_transition
  cases cs
  · exact Or.inl rfl
  · dsimp only
    cases (q.map Prod.snd).min? with
    | none => exact Or.inl rfl
    | some p =>
      dsimp only
      by_cases hp : p < 1
      · rw [if_pos hp]
        exact Or.inl rfl
      · rw [if_neg hp]
        exact Or.inr rfl
  · exact Or.inl rfl
  · exact Or.inl rfl

theorem inv_transition {s : SchedulerState} (h : Inv s) :
    Inv s.state_machine_internal_transition := by
  rcases transition_state_or s with he | he <;> rw [he]
  · exact h
  · exact ⟨h.items_nodup, h.store_nodup, h.mq_nodup, h.mq_store, h.ref_items,
      h.self_flag, h.fresh, fun hc => by simp at hc⟩

theorem get_from_queue_ok_mem {s : SchedulerState} {e : Option (ℕ × ℤ)} {p : ℤ}
    {m : MatchPair} (hq : s.get_from_queue e p = some (Except.ok m)) :
    m ∈ s.match_store := by
  unfold SchedulerState.get_from_queue at hq
  cases e with
  | none => simp at hq
  | some ke =>
    dsimp only at hq
    by_cases hlt : p < ke.2
    · rw [if_pos hlt] at hq
      simp at hq
    · rw [if_neg hlt] at hq
      cases hlk : lookupKeyed MatchPair.match_pair_id s.match_store ke.1 with
      | none =>
        rw [hlk] at hq
        simp at hq
      | some m2 =>
        rw [hlk] at hq
        simp only [Option.some.injEq, Except.ok.injEq] at hq
        subst hq
        exact (lookupKeyed_eq_some hlk).1

/-- Preservation of `Inv` by the update step of `give_judge_next_match`:
the selected stored match `m` is replaced (in the store) by `m2` — same id,
same item refs, same ghost flag, `visit_count` one higher — and the queue
entry with its id, if any, has its priority bumped by one. -/
theorem inv_give_update {s : SchedulerState} (h : Inv s) {m : MatchPair}
    (hm : m ∈ s.match_store) (hns : s.current_state ≠ States.NoState)
    {m2 : MatchPair} (hid : m2.match_pair_id = m.match_pair_id)
    (hvis : m2.visit_count = m.visit_count + 1)
    (hi1 : m2.i1 = m.i1) (hi2 : m2.i2 = m.i2)
    (hflag : m2.odd_seed_self = m.odd_seed_self) :
    Inv { s with
      mq := SchedulerState.change_priority_by s.mq m.match_pair_id
      match_store := s.match_store.map (fun x =>
        if x.match_pair_id == m.match_pair_id then m2 else x) } := by
  refine ⟨h.items_nodup, ?_, ?_, ?_, ?_, ?_, ?_, fun hc => absurd hc hns⟩
  · rw [map_key_update _ _ _ hid]
    exact h.store_nodup
  · rw [change_priority_map_fst]
    exact h.mq_nodup
  · intro x hx
    rcases mem_change_priority hx with ⟨y, hy, rfl⟩
    rcases h.mq_store y hy with ⟨my, hmy, hmyid, hmyvis⟩
    by_cases hk : y.1 = m.match_pair_id
    · have hym : my = m :=
        mem_unique_of_nodup_keys h.store_nodup hmy hm (by rw [hmyid, hk])
      refine ⟨m2, update_mem_self hm rfl, ?_, ?_⟩
      · rw [if_pos (by simpa using hk)]
        rw [hid, ← hk, ← hmyid]
      · rw [if_pos (by simpa using hk)]
        show m2.visit_count = y.2 + 1
        rw [hvis, ← hym, hmyvis]
    · rw [if_neg (by simpa using hk)]
      exact ⟨my, update_mem_of_mem hmy (by rw [hmyid]; exact hk), hmyid, hmyvis⟩
  · intro x hx
    rcases mem_update hx with hx' | rfl
    · exact h.ref_items x hx'
    · rw [hi1, hi2]
      exact h.ref_items m hm
  · intro x hx heq
    rcases mem_update hx with hx' | rfl
    · exact h.self_flag x hx' heq
    · rw [hflag]
      exact h.self_flag m hm (by rw [← hi1, ← hi2]; exact heq)
  · intro x hx
    rcases mem_update hx with hx' | rfl
    · exact h.fresh x hx'
    · rw [hid]
      exact h.fresh m hm

/-- Preservation of `Inv` by `judge_match`'s winner write: the stored match
`m` is replaced by `m` with its `winner` field set; ids, item refs,
`visit_count`, the ghost flag and the queue are untouched. -/
theorem inv_set_winner {s : SchedulerState} (h : Inv s) {m : MatchPair}
    (hm : m ∈ s.match_store) (w : MatchWinner) :
    Inv { s with
      match_store := s.match_store.map (fun x =>
        if x.match_pair_id == m.match_pair_id then { m with winner := some w } else x) } := by
  refine ⟨h.items_nodup, ?_, h.mq_nodup, ?_, ?_, ?_, ?_, ?_⟩
  · dsimp only
    rw [map_key_update s.match_store m.match_pair_id { m with winner := some w } rfl]
    exact h.store_nodup
  · intro x hx
    rcases h.mq_store x hx with ⟨my, hmy, hmyid, hmyvis⟩
    by_cases hk : my.match_pair_id = m.match_pair_id
    · have hym : my = m := mem_unique_of_nodup_keys h.store_nodup hmy hm hk
      refine ⟨{ m with winner := some w }, update_mem_self hm rfl, ?_, ?_⟩
      · show m.match_pair_id = x.1
        rw [← hk, hmyid]
      · show m.visit_count = x.2
        rw [← hym, hmyvis]
    · exact ⟨my, update_mem_of_mem hmy hk, hmyid, hmyvis⟩
  · intro x hx
    rcases mem_update hx with hx' | rfl
    · exact h.ref_items x hx'
    · exact h.ref_items m hm
  · intro x hx heq
    rcases mem_update hx with hx' | rfl
    · exact h.self_flag x hx' heq
    · exact h.self_flag m hm heq
  · intro x hx
    rcases mem_update hx with hx' | rfl
    · exact h.fresh x hx'
    · exact h.fresh m hm
  · intro hc
    have he := h.nostate_empty hc
    rw [he.1]
    exact ⟨rfl, he.2⟩

/-- Preservation of `Inv` by the continuous-phase insertion of a freshly
synthesized match (fresh id `next_id`, valid distinct item refs, ghost flag
off), which goes into the match store only. -/
theorem inv_synth_insert {s : SchedulerState} (h : Inv s)
    (hns : s.current_state ≠ States.NoState) {mn : MatchPair}
    (hid : mn.match_pair_id = s.next_id)
    (href1 : mn.i1 ∈ s.items.map Item.id) (href2 : mn.i2 ∈ s.items.map Item.id)
    (hne : mn.i1 ≠ mn.i2) :
    Inv { s with
      match_store := insertKeyed MatchPair.match_pair_id s.match_store mn
      next_id := s.next_id + 1 } := by
  have hfresh : mn.match_pair_id ∉ s.match_store.map MatchPair.match_pair_id := by
    intro hc
    rcases List.mem_map.mp hc with ⟨x, hx, hxid⟩
    have := h.fresh x hx
    omega
  have happ := insertKeyed_eq_append hfresh
  rw [happ]
  refine ⟨h.items_nodup, ?_, h.mq_nodup, ?_, ?_, ?_, ?_, fun hc => absurd hc hns⟩
  · rw [List.map_append]
    refine List.Nodup.append h.store_nodup (List.nodup_singleton _) ?_
    intro a ha hb
    rw [List.map_singleton, List.mem_singleton] at hb
    subst hb
    exact hfresh ha
  · intro x hx
    rcases h.mq_store x hx with ⟨my, hmy, hmyid, hmyvis⟩
    exact ⟨my, List.mem_append_left _ hmy, hmyid, hmyvis⟩
  · intro x hx
    rcases List.mem_append.mp hx with hx' | hx'
    · exact h.ref_items x hx'
    · rw [List.mem_singleton] at hx'
      subst hx'
      exact ⟨href1, href2⟩
  · intro x hx heq
    rcases List.mem_append.mp hx with hx' | hx'
    · exact h.self_flag x hx' heq
    · rw [List.mem_singleton] at hx'
      subst hx'
      exact absurd heq hne
  · intro x hx
    rcases List.mem_append.mp hx with hx' | hx'
    · have := h.fresh x hx'
      show x.match_pair_id < s.next_id + 1
      omega
    · rw [List.mem_singleton] at hx'
      subst hx'
      show x.match_pair_id < s.next_id + 1
      omega

/-- Preservation of `Inv` by the whole continuous-phase synthesis branch of
`give_judge_next_match`: insert the fresh match, then stamp the judge and
bump its visit count (the queue bump is a no-op on its fresh id). -/
theorem inv_continuous_synth (s1 : SchedulerState) (j k : ℕ) (judge : Judge)
    (hInv : Inv s1) (hcont : s1.current_state = States.Continuous)
    (hj : j < s1.items.length) (hk2 : k < s1.items.length) (hjk : j ≠ k) :
    Inv (let mn : MatchPair :=
          { match_pair_id := s1.next_id
            i1 := (s1.items.map Item.id).getD j 0
            i2 := (s1.items.map Item.id).getD k 0
            visit_count := 0
            winner := none
            judge_id := none
            odd_seed_self := false }
        let s2 : SchedulerState :=
          { s1 with
            match_store := insertKeyed MatchPair.match_pair_id s1.match_store mn
            next_id := s1.next_id + 1 }
        { s2 with
          mq := SchedulerState.change_priority_by s2.mq mn.match_pair_id
          match_store := s2.match_store.map (fun x =>
            if x.match_pair_id == mn.match_pair_id then
              { mn with judge_id := some judge.id, visit_count := mn.visit_count + 1 }
            else x) }) := by
  have hlenj : j < (s1.items.map Item.id).length := by
    rw [List.length_map]
    exact hj
  have hlenk : k < (s1.items.map Item.id).length := by
    rw [List.length_map]
    exact hk2
  have href1 : (s1.items.map Item.id).getD j 0 ∈ s1.items.map Item.id := by
    rw [List.getD_eq_getElem _ _ hlenj]
    exact List.getElem_mem hlenj
  have href2 : (s1.items.map Item.id).getD k 0 ∈ s1.items.map Item.id := by
    rw [List.getD_eq_getElem _ _ hlenk]
    exact List.getElem_mem hlenk
  have hne : (s1.items.map Item.id).getD j 0 ≠ (s1.items.map Item.id).getD k 0 :=
    fun he => hjk (getD_inj_of_nodup hInv.items_nodup hlenj hlenk he)
  have hInv2 : Inv { s1 with
      match_store := insertKeyed MatchPair.match_pair_id s1.match_store
        { match_pair_id := s1.next_id
          i1 := (s1.items.map Item.id).getD j 0
          i2 := (s1.items.map Item.id).getD k 0
          visit_count := 0
          winner := none
          judge_id := none
          odd_seed_self := false }
      next_id := s1.next_id + 1 } :=
    inv_synth_insert hInv (by rw [hcont]; decide) rfl href1 href2 hne
  exact inv_give_update hInv2 self_mem_insertKeyed (by rw [hcont]; decide)
    rfl rfl rfl rfl rfl

/-- Preservation of `Inv` by everything `give_judge_next_match` does after
the internal transition, for every outcome of `find_next_match`. -/
theorem inv_give_aux (s1 : SchedulerState) (e : Option (ℕ × ℤ)) (j k : ℕ)
    (judge : Judge) (hInv : Inv s1) (hpick : SynthPickOk s1 e j k) :
    Inv (match s1.find_next_match e j k with
      | (Except.ok m, s2) =>
          { s2 with
            mq := SchedulerState.change_priority_by s2.mq m.match_pair_id
            match_store := s2.match_store.map (fun x =>
              if x.match_pair_id == m.match_pair_id then
                { m with judge_id := some judge.id, visit_count := m.visit_count + 1 }
              else x) }
      | (Except.error _, s2) => s2) := by
  cases hcs : s1.current_state with
  | NoState =>
    have hfm : s1.find_next_match e j k =
        (Except.error "Cannot get next match while in NONE state", s1) := by
      unfold SchedulerState.find_next_match
      rw [hcs]
    rw [hfm]
    exact hInv
  | End =>
    have hfm : s1.find_next_match e j k =
        (Except.error "Cannot get next match while in END state", s1) := by
      unfold SchedulerState.find_next_match
      rw [hcs]
    rw [hfm]
    exact hInv
  | Init =>
    have hfm : s1.find_next_match e j k =
        (match s1.get_from_queue e 0 with
          | some r => (r, s1)
          | none => (Except.error "unreachable: unwrap of None", s1)) := by
      unfold SchedulerState.find_next_match
      rw [hcs]
    rw [hfm]
    cases hq : s1.get_from_queue e 0 with
    | none => exact hInv
    | some r =>
      cases r with
      | error err => exact hInv
      | ok m =>
        have hm : m ∈ s1.match_store := get_from_queue_ok_mem hq
        exact inv_give_update hInv hm (by rw [hcs]; decide) rfl rfl rfl rfl rfl
  | Continuous =>
    have hfm : s1.find_next_match e j k = s1.get_continuous_stage e j k := by
      unfold SchedulerState.find_next_match
      rw [hcs]
    rw [hfm]
    cases hq : s1.get_from_queue e 1 with
    | some r =>
      cases r with
      | ok m =>
        have hstage : s1.get_continuous_stage e j k = (Except.ok m, s1) := by
          unfold SchedulerState.get_continuous_stage
          rw [hq]
        rw [hstage]
        have hm : m ∈ s1.match_store := get_from_queue_ok_mem hq
        exact inv_give_update hInv hm (by rw [hcs]; decide) rfl rfl rfl rfl rfl
      | error err =>
        have hno : ∀ m', s1.get_from_queue e 1 ≠ some (Except.ok m') := by
          intro m' hc
          rw [hq] at hc
          simp at hc
        obtain ⟨hj, hk2, hjk⟩ := hpick ⟨hcs, hno⟩
        have hstage : s1.get_continuous_stage e j k =
            (Except.ok
              ({ match_pair_id := s1.next_id
                 i1 := (s1.items.map Item.id).getD j 0
                 i2 := (s1.items.map Item.id).getD k 0
                 visit_count := 0
                 winner := none
                 judge_id := none
                 odd_seed_self := false } : MatchPair),
              { s1 with
                match_store := insertKeyed MatchPair.match_pair_id s1.match_store
                  { match_pair_id := s1.next_id
                    i1 := (s1.items.map Item.id).getD j 0
                    i2 := (s1.items.map Item.id).getD k 0
                    visit_count := 0
                    winner := none
                    judge_id := none
                    odd_seed_self := false }
                next_id := s1.next_id + 1 }) := by
          unfold SchedulerState.get_continuous_stage
          rw [hq]
        rw [hstage]
        exact inv_continuous_synth s1 j k judge hInv hcs hj hk2 hjk
    | none =>
      have hno : ∀ m', s1.get_from_queue e 1 ≠ some (Except.ok m') := by
        intro m' hc
        rw [hq] at hc
        simp at hc
      obtain ⟨hj, hk2, hjk⟩ := hpick ⟨hcs, hno⟩
      have hstage : s1.get_continuous_stage e j k =
          (Except.ok
            ({ match_pair_id := s1.next_id
               i1 := (s1.items.map Item.id).getD j 0
               i2 := (s1.items.map Item.id).getD k 0
               visit_count := 0
               winner := none
               judge_id := none
               odd_seed_self := false } : MatchPair),
            { s1 with
              match_store := insertKeyed MatchPair.match_pair_id s1.match_store
                { match_pair_id := s1.next_id
                  i1 := (s1.items.map Item.id).getD j 0
                  i2 := (s1.items.map Item.id).getD k 0
                  visit_count := 0
                  winner := none
                  judge_id := none
                  odd_seed_self := false }
              next_id := s1.next_id + 1 }) := by
        unfold SchedulerState.get_continuous_stage
        rw [hq]
      rw [hstage]
      exact inv_continuous_synth s1 j k judge hInv hcs hj hk2 hjk

/-- Every reachable scheduler state satisfies the inductive invariant. -/
theorem reachable_inv {s : SchedulerState} (h : Reachable s) : Inv s := by
  induction h with
  | initial =>
    refine ⟨?_, ?_, ?_, ?_, ?_, ?_, ?_, ?_⟩ <;> simp [SchedulerState.initial]
  | add_items s its _ ih =>
    refine ⟨?_, ih.store_nodup, ih.mq_nodup, ih.mq_store, ?_, ih.self_flag,
      ih.fresh, ih.nostate_empty⟩
    · exact foldl_insertKeyed_nodup its ih.items_nodup
    · intro m hm
      have h1 := ih.ref_items m hm
      exact ⟨mem_map_key_foldl_insertKeyed its h1.1,
        mem_map_key_foldl_insertKeyed its h1.2⟩
  | add_judges s js _ ih =>
    exact ⟨ih.items_nodup, ih.store_nodup, ih.mq_nodup, ih.mq_store, ih.ref_items,
      ih.self_flag, ih.fresh, ih.nostate_empty⟩
  | seed_start s n shuffle _ hperm ih =>
    by_cases hg : s.current_state = States.NoState
    · have hemp := ih.nostate_empty hg
      have hres : (s.seed_start n shuffle).2 =
          { s with
            current_state := States.Init
            match_store := (create_initial_matches s.items n shuffle s.next_id).foldl
              (insertKeyed MatchPair.match_pair_id) s.match_store
            mq := (create_initial_matches s.items n shuffle s.next_id).foldl
              (fun q m => insertKeyed Prod.fst q (m.match_pair_id, m.visit_count)) s.mq
            next_id := s.next_id + n * ((s.items.length + 1) / 2) } := by
        unfold SchedulerState.seed_start
        rw [if_neg (by simp [hg])]
      rw [hres]
      set ms := create_initial_matches s.items n shuffle s.next_id with hms
      have hmsid := cim_map_id s.items n shuffle s.next_id hperm
      rw [← hms] at hmsid
      have hmsnodup : (ms.map MatchPair.match_pair_id).Nodup := by
        rw [hmsid]
        exact List.Nodup.map (fun a b hab => by omega) (List.nodup_range _)
      have hqid : (ms.map (fun m => (m.match_pair_id, m.visit_count))).map Prod.fst
          = ms.map MatchPair.match_pair_id := by
        rw [List.map_map]
        rfl
      have hstore : ms.foldl (insertKeyed MatchPair.match_pair_id) s.match_store
          = s.match_store ++ ms :=
        foldl_insertKeyed_eq_append ms _ (fun m hm => by rw [hemp.1]; simp) hmsnodup
      have hqueue : ms.foldl
            (fun q m => insertKeyed Prod.fst q (m.match_pair_id, m.visit_count)) s.mq
          = s.mq ++ ms.map (fun m => (m.match_pair_id, m.visit_count)) :=
        foldl_insertKeyed_map_eq_append _ ms _ (fun m hm => by rw [hemp.2]; simp)
          (by rw [hqid]; exact hmsnodup)
      rw [hstore, hqueue, hemp.1, hemp.2, List.nil_append, List.nil_append]
      refine ⟨ih.items_nodup, hmsnodup, ?_, ?_, ?_, ?_, ?_, ?_⟩
      · show ((ms.map fun m => (m.match_pair_id, m.visit_count)).map Prod.fst).Nodup
        rw [hqid]
        exact hmsnodup
      · intro x hx
        rcases List.mem_map.mp hx with ⟨m, hm, rfl⟩
        exact ⟨m, hm, rfl, rfl⟩
      · intro m hm
        rw [hms] at hm
        rcases mem_cim hm with ⟨r, hr, hmr⟩
        have h1 := seedRound_ref hmr
        exact ⟨((hperm r).map Item.id).mem_iff.mp h1.1,
          ((hperm r).map Item.id).mem_iff.mp h1.2⟩
      · intro m hm heq
        rw [hms] at hm
        rcases mem_cim hm with ⟨r, hr, hmr⟩
        exact seedRound_self_flag
          (((hperm r).map Item.id).nodup_iff.mpr ih.items_nodup) hmr heq
      · intro m hm
        rw [hms] at hm
        rcases mem_cim hm with ⟨r, hr, hmr⟩
        have h1 := seedRound_id_range hmr
        have hlen := (hperm r).length_eq
        rw [hlen] at h1
        show m.match_pair_id < s.next_id + n * ((s.items.length + 1) / 2)
        have h2 : (r + 1) * ((s.items.length + 1) / 2)
            ≤ n * ((s.items.length + 1) / 2) :=
          Nat.mul_le_mul_right _ (by omega)
        rw [Nat.succ_mul] at h2
        omega
      · intro hc
        simp at hc
    · have hres : s.seed_start n shuffle = (false, s) := by
        unfold SchedulerState.seed_start
        rw [if_pos hg]
      rw [hres]
      exact ih
  | give s judge e j k _ hpeek hpick ih =>
    have heq : (s.give_judge_next_match judge e j k).2 =
        (match s.state_machine_internal_transition.find_next_match e j k with
          | (Except.ok m, s2) =>
              { s2 with
                mq := SchedulerState.change_priority_by s2.mq m.match_pair_id
                match_store := s2.match_store.map (fun x =>
                  if x.match_pair_id == m.match_pair_id then
                    { m with judge_id := some judge.id, visit_count := m.visit_count + 1 }
                  else x) }
          | (Except.error _, s2) => s2) := by
      unfold SchedulerState.give_judge_next_match
      rcases s.state_machine_internal_transition.find_next_match e j k with ⟨res, s2⟩
      cases res <;> rfl
    rw [heq]
    exact inv_give_aux _ e j k judge (inv_transition ih) hpick
  | judge s judge mid w _ ih =>
    cases hlk : lookupKeyed MatchPair.match_pair_id s.match_store mid with
    | none =>
      have hres : s.judge_match judge mid w = (false, s) := by
        unfold SchedulerState.judge_match
        rw [hlk]
      rw [hres]
      exact ih
    | some m =>
      have hmm := lookupKeyed_eq_some hlk
      have hres : (s.judge_match judge mid w).2 =
          { s with match_store := s.match_store.map (fun x =>
              if x.match_pair_id == mid then { m with winner := some w } else x) } := by
        unfold SchedulerState.judge_match
        rw [hlk]
      rw [hres, ← hmm.2]
      exact inv_set_winner ih hmm.1 w

/-! ### Claim C4 -/

/-- **C4.** The claim says the Illinois objective `f` of `sigma_by_illinois`
divides its first term by `2(φ² + v + e^x)²`.  It does not: by Rust
precedence the source computes `(e^x(Δ² − φ² − v − e^x)/2)·(φ² + v + e^x)²`,
multiplying by the squared term.  At `φ² = 1`, `v = 1`, `Δ = 0`,
`a = x = 0`, `e^x = 1` the source's `f` yields `−27/2` while the claimed
formula yields `−1/6`. -/
theorem C4_illinois_f_precedence_bug :
    illinois_f_code 1 1 0 0 0 1 ≠ illinois_f_spec 1 1 0 0 0 1 ∧
    illinois_f_code 1 1 0 0 0 1 = -27 / 2 ∧
    illinois_f_spec 1 1 0 0 0 1 = -1 / 6 := by
  refine ⟨?_, ?_, ?_⟩ <;> norm_num [illinois_f_code, illinois_f_spec, TAU]

/-! ### Claim C9 -/

/-- **C9.** Elo rating conservation: for every pair of ratings, every
nonzero K and either winner, the pair `(r1', r2')` returned by `calculate`
satisfies `r1' + r2' = r1 + r2` exactly when `p1 + p2 = 1`, where
`p1 = 1/(1 + ((r1−r2)/400)^10)` and `p2 = 1/(1 + ((r2−r1)/400)^10)`. -/
theorem C9_elo_rating_conservation (r1 r2 k : ℚ) (w : Elo.Winner) (hk : k ≠ 0) :
    (Elo.calculate r1 r2 k w).1 + (Elo.calculate r1 r2 k w).2 = r1 + r2 ↔
      1 / (1 + ((r1 - r2) / 400) ^ (10 : ℕ))
        + 1 / (1 + ((r2 - r1) / 400) ^ (10 : ℕ)) = 1 := by
  set p1 := 1 / (1 + ((r1 - r2) / 400) ^ (10 : ℕ)) with hp1
  set p2 := 1 / (1 + ((r2 - r1) / 400) ^ (10 : ℕ)) with hp2
  have hcalc :
      (Elo.calculate r1 r2 k w).1 + (Elo.calculate r1 r2 k w).2 =
        r1 + r2 + k * (1 - (p1 + p2)) := by
    cases w <;>
      simp only [Elo.calculate, Elo.calc_new_rating, if_true, Bool.false_eq_true,
        if_false, ← hp1, ← hp2] <;>
      ring
  rw [hcalc]
  constructor
  · intro h
    have hz : k * (1 - (p1 + p2)) = 0 := by linarith
    rcases mul_eq_zero.mp hz with h1 | h2
    · exact absurd h1 hk
    · linarith
  · intro h
    rw [h]
    ring

/-- Witness for C9 at `r1 = 400`, `r2 = 0`, `k = 30`, winner P1: there
`((r1−r2)/400)^10 = 1`, both expected scores are `1/2`, their sum is `1`,
and the rating sum is conserved. -/
theorem C9_elo_rating_conservation_witness :
    (30 : ℚ) ≠ 0 ∧
      ((Elo.calculate 400 0 30 Elo.Winner.P1).1
          + (Elo.calculate 400 0 30 Elo.Winner.P1).2 = 400 + 0 ↔
        1 / (1 + ((400 - 0) / 400) ^ (10 : ℕ))
          + 1 / (1 + ((0 - 400) / 400) ^ (10 : ℕ)) = (1 : ℚ)) :=
  ⟨by norm_num, C9_elo_rating_conservation 400 0 30 Elo.Winner.P1 (by norm_num)⟩

/-! ### Claim C1 -/

/-- **C1.** The claim says `judge_match` writes the updated ratings back to
both items, so later `get-items` snapshots show the new scores.  It does
not: `Glicko2::process_matches` is pure (it consumes `self` and returns the
new rating, glicko2/algo.rs:28) and `judge_match` discards both returned
values (scheduler.rs:159–168), as the source's own comment at
scheduler.rs:153 admits ("does not actually update backing items array").
This theorem shows the item store — hence every `get_items` snapshot — is
unchanged by any `judge_match` call. -/
theorem C1_judge_match_never_updates_items (s : SchedulerState) (judge : Judge)
    (mid : ℕ) (w : MatchWinner) :
    ((s.judge_match judge mid w).2).get_items = s.get_items := by
  unfold SchedulerState.judge_match SchedulerState.get_items
  cases lookupKeyed MatchPair.match_pair_id s.match_store mid <;> rfl

/-! ### Claim C7 -/

/-- **C7.** The internal state-machine transition: from `Init` with queue
minimum priority ≥ 1 it moves to `Continuous` (touching nothing but the
phase); from `Init` with an empty queue it stays `Init` unchanged; from
`Init` with minimum priority 0 it is the identity; and `NoState`,
`Continuous` and `End` are fixed points. -/
theorem C7_state_machine_internal_transition_cases (s : SchedulerState) :
    (s.current_state = States.Init →
      ((s.mq.map Prod.snd).min? = none → s.state_machine_internal_transition = s) ∧
      ∀ p : ℤ, (s.mq.map Prod.snd).min? = some p →
        (1 ≤ p → s.state_machine_internal_transition =
            { s with current_state := States.Continuous }) ∧
        (p = 0 → s.state_machine_internal_transition = s)) ∧
    (s.current_state = States.NoState → s.state_machine_internal_transition = s) ∧
    (s.current_state = States.Continuous → s.state_machine_internal_transition = s) ∧
    (s.current_state = States.End → s.state_machine_internal_transition = s) := by
  refine ⟨?_, ?_, ?_, ?_⟩
  · intro h
    constructor
    · intro hq
      simp only [SchedulerState.state_machine_internal_transition, h, hq]
    · intro p hq
      constructor
      · intro hp
        simp only [SchedulerState.state_machine_internal_transition, h, hq,
          if_neg (by omega : ¬ p < 1)]
      · intro hp
        simp only [SchedulerState.state_machine_internal_transition, h, hq,
          if_pos (by omega : p < 1)]
  · intro h
    simp only [SchedulerState.state_machine_internal_transition, h]
  · intro h
    simp only [SchedulerState.state_machine_internal_transition, h]
  · intro h
    simp only [SchedulerState.state_machine_internal_transition, h]

/-- Witness for C7: a concrete `Init` state whose queue holds the single
entry `(0, 1)` — minimum priority 1 — transitions to `Continuous`. -/
theorem C7_state_machine_internal_transition_cases_witness :
    ({ SchedulerState.initial with
        current_state := States.Init,
        mq := [((0 : ℕ), (1 : ℤ))] } : SchedulerState).current_state = States.Init ∧
    (({ SchedulerState.initial with
        current_state := States.Init,
        mq := [((0 : ℕ), (1 : ℤ))] } : SchedulerState).mq.map Prod.snd).min? = some 1 ∧
    ({ SchedulerState.initial with
        current_state := States.Init,
        mq := [((0 : ℕ), (1 : ℤ))] } : SchedulerState).state_machine_internal_transition =
      { SchedulerState.initial with
        current_state := States.Continuous,
        mq := [((0 : ℕ), (1 : ℤ))] } :=
  ⟨rfl, by decide,
    (((C7_state_machine_internal_transition_cases _).1 rfl).2 1 (by decide)).1 le_rfl⟩

/-! ### Claim C8 -/

/-- **C8.** `seed_start` called in any phase other than `NoState` returns
`false` and leaves the whole scheduler state — match store, queue, items,
judges and phase — unchanged (the guard at scheduler.rs:232–234 returns
before any mutation). -/
theorem C8_seed_start_rejected_outside_none (s : SchedulerState) (n : ℕ)
    (shuffle : ℕ → List Item → List Item)
    (h : s.current_state ≠ States.NoState) :
    s.seed_start n shuffle = (false, s) := by
  unfold SchedulerState.seed_start
  rw [if_pos h]

/-- Witness for C8 at a concrete `Init`-phase state. -/
theorem C8_seed_start_rejected_outside_none_witness :
    ({ SchedulerState.initial with
        current_state := States.Init } : SchedulerState).current_state ≠ States.NoState ∧
    SchedulerState.seed_start
        { SchedulerState.initial with current_state := States.Init } 1 (fun _ l => l) =
      (false, { SchedulerState.initial with current_state := States.Init }) :=
  ⟨by decide, C8_seed_start_rejected_outside_none _ 1 (fun _ l => l) (by decide)⟩

theorem dsSeed_reachable : Reachable dsSeed :=
  Reachable.seed_start dsAdd 1 demoShuffle
    (Reachable.add_items _ _ Reachable.initial) (fun _ => List.Perm.refl _)

theorem dsGive1_reachable : Reachable dsGive1 :=
  Reachable.give dsSeed demoJudge (some (0, 0)) 0 0 dsSeed_reachable
    (by exact ⟨by decide, by decide⟩)
    (fun h => absurd h.1 (by decide))

theorem dsGive2_reachable : Reachable dsGive2 :=
  Reachable.give dsGive1 demoJudge (some (0, 1)) 0 0 dsGive1_reachable
    (by exact ⟨by decide, by decide⟩)
    (fun h => absurd rfl (h.2
      { match_pair_id := 0, i1 := 1, i2 := 2, visit_count := 1,
        winner := none, judge_id := some 7, odd_seed_self := false }))

theorem dsGive3_reachable : Reachable dsGive3 :=
  Reachable.give dsGive2 demoJudge (some (0, 2)) 0 1 dsGive2_reachable
    (by exact ⟨by decide, by decide⟩)
    (fun _ => ⟨by decide, by decide, by decide⟩)

theorem oddSeed_reachable : Reachable oddSeed :=
  Reachable.seed_start _ 1 demoShuffle
    (Reachable.add_items _ _ Reachable.initial) (fun _ => List.Perm.refl _)

theorem dsAdd_reachable : Reachable dsAdd :=
  Reachable.add_items _ _ Reachable.initial

/-! ### Claim C2, counterexample -/

/-- **C2, counterexample.** The claim — every match in the match store has
exactly one queue entry with the same id and priority `visit_count`,
including matches synthesized in the Continuous phase — is false.  In the
reachable state `dsGive3` the continuous stage has synthesized match id 1
(scheduler.rs:306–333 inserts it into the match store only, never into the
queue), so the store holds a match with no queue entry at all. -/
theorem C2_counterexample_synthesized_match_has_no_queue_entry :
    Reachable dsGive3 ∧
      ¬ ∀ m ∈ dsGive3.match_store,
          ∃ x ∈ dsGive3.mq, x.1 = m.match_pair_id ∧ x.2 = m.visit_count :=
  ⟨dsGive3_reachable, by decide⟩

/-! ### Claim C3, counterexample -/

/-- **C3, counterexample.** The claim `m.i1 ≠ m.i2` for every match in every
reachable state is false: seeding a store with one item (an odd count) pads
the round with a duplicate of index 0 (scheduler.rs:92–94) and pairs index 0
with that duplicate, producing a self-match — here match 0 with
`i1 = i2 = 5` in the reachable state `oddSeed`. -/
theorem C3_counterexample_odd_seed_self_match :
    Reachable oddSeed ∧ ¬ ∀ m ∈ oddSeed.match_store, m.i1 ≠ m.i2 :=
  ⟨oddSeed_reachable, by decide⟩

/-! ### Claim C2, amended -/

/-- **C2, amended.** In every reachable state the queue→store direction of
the claimed invariant holds: queue keys are unique, match-store keys are
unique, and every queue entry names a match present in the store whose
`visit_count` equals the entry's priority (so each queue entry corresponds
to exactly one stored match).  The store→queue direction fails only for
matches synthesized in the Continuous phase, which are never enqueued. -/
theorem C2_amended_queue_entries_track_store {s : SchedulerState}
    (h : Reachable s) :
    (s.mq.map Prod.fst).Nodup ∧
    (s.match_store.map MatchPair.match_pair_id).Nodup ∧
    ∀ x ∈ s.mq, ∃ m ∈ s.match_store,
      m.match_pair_id = x.1 ∧ m.visit_count = x.2 :=
  ⟨(reachable_inv h).mq_nodup, (reachable_inv h).store_nodup,
    (reachable_inv h).mq_store⟩

/-- Witness for the amended C2 at the concrete reachable state `dsGive3`
(one served seed match in the queue at priority 2, one synthesized match
outside it). -/
theorem C2_amended_queue_entries_track_store_witness :
    (dsGive3.mq.map Prod.fst).Nodup ∧
    (dsGive3.match_store.map MatchPair.match_pair_id).Nodup ∧
    ∀ x ∈ dsGive3.mq, ∃ m ∈ dsGive3.match_store,
      m.match_pair_id = x.1 ∧ m.visit_count = x.2 :=
  C2_amended_queue_entries_track_store dsGive3_reachable

/-! ### Claim C3, amended -/

/-- **C3, amended.** In every reachable state, `m.i1 ≠ m.i2` for every match
in the store *except* the self-match that each seed round over an odd number
of items produces by pairing the duplicated index-0 item with itself: a
stored match with `m.i1 = m.i2` is always such a pair (`odd_seed_self`
marks exactly the index-0 pair of an odd-length seed round).  In
particular continuous-phase synthesis always samples two distinct items. -/
theorem C3_amended_self_match_only_from_odd_seed_round {s : SchedulerState}
    (h : Reachable s) :
    ∀ m ∈ s.match_store, m.i1 = m.i2 → m.odd_seed_self = true :=
  (reachable_inv h).self_flag

/-- Witness for the amended C3: the single match of the concrete reachable
state `oddSeed` — the index-0 self-pair (`i1 = i2 = 5`) of a one-item seed
round — indeed carries the odd-round provenance flag. -/
theorem C3_amended_self_match_only_from_odd_seed_round_witness :
    ({ match_pair_id := 0, i1 := 5, i2 := 5, visit_count := 0, winner := none,
       judge_id := none, odd_seed_self := true } : MatchPair).odd_seed_self = true :=
  C3_amended_self_match_only_from_odd_seed_round oddSeed_reachable _
    (by decide) (by decide)

/-! ### Claim C5 -/

/-- **C5.** In a reachable `NoState` state with `k` items (legal seed
shuffles: each round's list is a permutation of the item store),
`seed_start n` returns `true`, moves the phase to `Init`, and both the
match store and the queue end up with exactly `n · ⌈k/2⌉` entries (the
store is empty in `NoState`, so these are exactly the created matches);
every created match has `visit_count = 0`, no winner, no judge, and a
queue entry at priority `0`. -/
theorem C5_seed_start_creates_n_ceil_half_matches {s : SchedulerState}
    (h : Reachable s) (hns : s.current_state = States.NoState) (n : ℕ)
    (shuffle : ℕ → List Item → List Item)
    (hperm : ∀ r, (shuffle r s.items).Perm s.items) :
    (s.seed_start n shuffle).1 = true ∧
    (s.seed_start n shuffle).2.current_state = States.Init ∧
    (s.seed_start n shuffle).2.match_store.length = n * ((s.items.length + 1) / 2) ∧
    (s.seed_start n shuffle).2.mq.length = n * ((s.items.length + 1) / 2) ∧
    ∀ m ∈ (s.seed_start n shuffle).2.match_store,
      m.visit_count = 0 ∧ m.winner = none ∧ m.judge_id = none ∧
        (m.match_pair_id, (0 : ℤ)) ∈ (s.seed_start n shuffle).2.mq := by
  have ih := reachable_inv h
  have hemp := ih.nostate_empty hns
  have hfull : s.seed_start n shuffle = (true,
      { s with
        current_state := States.Init
        match_store := (create_initial_matches s.items n shuffle s.next_id).foldl
          (insertKeyed MatchPair.match_pair_id) s.match_store
        mq := (create_initial_matches s.items n shuffle s.next_id).foldl
          (fun q m => insertKeyed Prod.fst q (m.match_pair_id, m.visit_count)) s.mq
        next_id := s.next_id + n * ((s.items.length + 1) / 2) }) := by
    unfold SchedulerState.seed_start
    rw [if_neg (by simp [hns])]
  set ms := create_initial_matches s.items n shuffle s.next_id with hms
  have hmsid := cim_map_id s.items n shuffle s.next_id hperm
  rw [← hms] at hmsid
  have hmsnodup : (ms.map MatchPair.match_pair_id).Nodup := by
    rw [hmsid]
    exact List.Nodup.map (fun a b hab => by omega) (List.nodup_range _)
  have hqid : (ms.map (fun m => (m.match_pair_id, m.visit_count))).map Prod.fst
      = ms.map MatchPair.match_pair_id := by
    rw [List.map_map]
    rfl
  have hstore : ms.foldl (insertKeyed MatchPair.match_pair_id) s.match_store
      = s.match_store ++ ms :=
    foldl_insertKeyed_eq_append ms _ (fun m hm => by rw [hemp.1]; simp) hmsnodup
  have hqueue : ms.foldl
        (fun q m => insertKeyed Prod.fst q (m.match_pair_id, m.visit_count)) s.mq
      = s.mq ++ ms.map (fun m => (m.match_pair_id, m.visit_count)) :=
    foldl_insertKeyed_map_eq_append _ ms _ (fun m hm => by rw [hemp.2]; simp)
      (by rw [hqid]; exact hmsnodup)
  have hlen : ms.length = n * ((s.items.length + 1) / 2) := by
    rw [hms]
    exact cim_length _ _ _ _ hperm
  rw [hfull]
  refine ⟨rfl, rfl, ?_, ?_, ?_⟩
  · show (ms.foldl (insertKeyed MatchPair.match_pair_id) s.match_store).length = _
    rw [hstore, hemp.1, List.nil_append, hlen]
  · show (ms.foldl
        (fun q m => insertKeyed Prod.fst q (m.match_pair_id, m.visit_count)) s.mq).length = _
    rw [hqueue, hemp.2, List.nil_append, List.length_map, hlen]
  · intro m hm
    have hm0 : m ∈ ms := by
      rw [hstore, hemp.1, List.nil_append] at hm
      exact hm
    have hm1 := hm0
    rw [hms] at hm1
    rcases mem_cim hm1 with ⟨r, hr, hmr⟩
    have hf := seedRound_fields hmr
    refine ⟨hf.1, hf.2.1, hf.2.2, ?_⟩
    show (m.match_pair_id, (0 : ℤ)) ∈ ms.foldl
      (fun q m => insertKeyed Prod.fst q (m.match_pair_id, m.visit_count)) s.mq
    rw [hqueue, hemp.2, List.nil_append]
    have he : (m.match_pair_id, (0 : ℤ)) = (m.match_pair_id, m.visit_count) := by
      rw [hf.1]
    rw [he]
    exact List.mem_map_of_mem _ hm0

/-- Witness for C5: two items, `seed_start(1)` from the reachable `NoState`
state `dsAdd` creates exactly `1 · ⌈2/2⌉ = 1` match. -/
theorem C5_seed_start_creates_n_ceil_half_matches_witness :
    (dsAdd.seed_start 1 demoShuffle).1 = true ∧
    (dsAdd.seed_start 1 demoShuffle).2.current_state = States.Init ∧
    (dsAdd.seed_start 1 demoShuffle).2.match_store.length =
      1 * ((dsAdd.items.length + 1) / 2) ∧
    (dsAdd.seed_start 1 demoShuffle).2.mq.length =
      1 * ((dsAdd.items.length + 1) / 2) ∧
    ∀ m ∈ (dsAdd.seed_start 1 demoShuffle).2.match_store,
      m.visit_count = 0 ∧ m.winner = none ∧ m.judge_id = none ∧
        (m.match_pair_id, (0 : ℤ)) ∈ (dsAdd.seed_start 1 demoShuffle).2.mq :=
  C5_seed_start_creates_n_ceil_half_matches dsAdd_reachable rfl 1 demoShuffle
    (fun _ => List.Perm.refl _)

/-! ### Claim C6 -/

/-- **C6.** In the Continuous phase, the candidate selection
(`get_continuous_stage`, driven by `get_from_queue(1)` on the peeked entry)
returns the queue's minimum-priority match when that minimum priority is
≤ 1 and the state is untouched; when the minimum priority exceeds 1 it
synthesizes a fresh `MatchPair` over the two distinct randomly picked items
(positions `j ≠ k` of the item store), with `visit_count = 0`, no winner and
no judge, inserts it into the match store but *not* into the priority
queue, and returns it. -/
theorem C6_continuous_stage_selection (s : SchedulerState) (e : Option (ℕ × ℤ))
    (j k : ℕ) (hpeek : IsPeekMin s.mq e)
    (hnodup : (s.items.map Item.id).Nodup)
    (hj : j < s.items.length) (hk2 : k < s.items.length) (hjk : j ≠ k) :
    (∀ id p, e = some (id, p) → p ≤ 1 →
      ∀ m, lookupKeyed MatchPair.match_pair_id s.match_store id = some m →
        s.get_continuous_stage e j k = (Except.ok m, s)) ∧
    (∀ id p, e = some (id, p) → 1 < p →
      ∃ mn, s.get_continuous_stage e j k =
          (Except.ok mn,
            { s with
              match_store := insertKeyed MatchPair.match_pair_id s.match_store mn
              next_id := s.next_id + 1 }) ∧
        mn.i1 ≠ mn.i2 ∧ mn.i1 ∈ s.items.map Item.id ∧ mn.i2 ∈ s.items.map Item.id ∧
        mn.visit_count = 0 ∧ mn.winner = none ∧ mn.judge_id = none ∧
        mn ∈ (s.get_continuous_stage e j k).2.match_store ∧
        (s.get_continuous_stage e j k).2.mq = s.mq) := by
  constructor
  · intro id p he hp m hlkp
    subst he
    have hq : s.get_from_queue (some (id, p)) 1 = some (Except.ok m) := by
      unfold SchedulerState.get_from_queue
      dsimp only
      rw [if_neg (by omega), hlkp]
    unfold SchedulerState.get_continuous_stage
    rw [hq]
  · intro id p he hp
    subst he
    have hq : s.get_from_queue (some (id, p)) 1 = none := by
      unfold SchedulerState.get_from_queue
      dsimp only
      rw [if_pos (by omega)]
    have hstage : s.get_continuous_stage (some (id, p)) j k =
        (Except.ok
          ({ match_pair_id := s.next_id
             i1 := (s.items.map Item.id).getD j 0
             i2 := (s.items.map Item.id).getD k 0
             visit_count := 0
             winner := none
             judge_id := none
             odd_seed_self := false } : MatchPair),
          { s with
            match_store := insertKeyed MatchPair.match_pair_id s.match_store
              { match_pair_id := s.next_id
                i1 := (s.items.map Item.id).getD j 0
                i2 := (s.items.map Item.id).getD k 0
                visit_count := 0
                winner := none
                judge_id := none
                odd_seed_self := false }
            next_id := s.next_id + 1 }) := by
      unfold SchedulerState.get_continuous_stage
      rw [hq]
    have hlenj : j < (s.items.map Item.id).length := by
      rw [List.length_map]
      exact hj
    have hlenk : k < (s.items.map Item.id).length := by
      rw [List.length_map]
      exact hk2
    refine ⟨_, hstage, ?_, ?_, ?_, rfl, rfl, rfl, ?_, ?_⟩
    · exact fun hc => hjk (getD_inj_of_nodup hnodup hlenj hlenk hc)
    · show (s.items.map Item.id).getD j 0 ∈ s.items.map Item.id
      rw [List.getD_eq_getElem _ _ hlenj]
      exact List.getElem_mem hlenj
    · show (s.items.map Item.id).getD k 0 ∈ s.items.map Item.id
      rw [List.getD_eq_getElem _ _ hlenk]
      exact List.getElem_mem hlenk
    · rw [hstage]
      exact self_mem_insertKeyed
    · rw [hstage]

/-- Witness for C6 at the concrete state `dsGive2` (Continuous phase,
queue `[(0, 2)]`, two items): with peeked entry `(0, 2)` of priority 2 > 1
the selection must synthesize. -/
theorem C6_continuous_stage_selection_witness :
    (∀ id p, (some ((0 : ℕ), (2 : ℤ)) : Option (ℕ × ℤ)) = some (id, p) → p ≤ 1 →
      ∀ m, lookupKeyed MatchPair.match_pair_id dsGive2.match_store id = some m →
        dsGive2.get_continuous_stage (some (0, 2)) 0 1 = (Except.ok m, dsGive2)) ∧
    (∀ id p, (some ((0 : ℕ), (2 : ℤ)) : Option (ℕ × ℤ)) = some (id, p) → 1 < p →
      ∃ mn, dsGive2.get_continuous_stage (some (0, 2)) 0 1 =
          (Except.ok mn,
            { dsGive2 with
              match_store := insertKeyed MatchPair.match_pair_id dsGive2.match_store mn
              next_id := dsGive2.next_id + 1 }) ∧
        mn.i1 ≠ mn.i2 ∧ mn.i1 ∈ dsGive2.items.map Item.id ∧
        mn.i2 ∈ dsGive2.items.map Item.id ∧
        mn.visit_count = 0 ∧ mn.winner = none ∧ mn.judge_id = none ∧
        mn ∈ (dsGive2.get_continuous_stage (some (0, 2)) 0 1).2.match_store ∧
        (dsGive2.get_continuous_stage (some (0, 2)) 0 1).2.mq = dsGive2.mq) :=
  C6_continuous_stage_selection dsGive2 (some (0, 2)) 0 1
    (by exact ⟨by decide, by decide⟩) (by decide) (by decide) (by decide) (by decide)

/-! ### Claim C10 -/

/-- **C10.** In every reachable state, every match in the store references
two item ids that are present in the item store, so the two
`items.get_mut(..).unwrap()` calls of `judge_match` (scheduler.rs:151–152)
cannot fail on a stored match: both lookups return `Some`. -/
theorem C10_match_item_lookups_succeed {s : SchedulerState} (h : Reachable s) :
    ∀ m ∈ s.match_store,
      (lookupKeyed Item.id s.items m.i1).isSome ∧
      (lookupKeyed Item.id s.items m.i2).isSome := by
  intro m hm
  have h1 := (reachable_inv h).ref_items m hm
  exact ⟨lookupKeyed_isSome_of_mem h1.1, lookupKeyed_isSome_of_mem h1.2⟩

/-- Witness for C10 at the concrete reachable state `dsGive3`, instantiated
at its synthesized match (id 1 over items 1 and 2): both item lookups that
`judge_match` would `unwrap` return `Some`. -/
theorem C10_match_item_lookups_succeed_witness :
    (lookupKeyed Item.id dsGive3.items
      ({ match_pair_id := 1, i1 := 1, i2 := 2, visit_count := 1, winner := none,
         judge_id := some 7, odd_seed_self := false } : MatchPair).i1).isSome ∧
    (lookupKeyed Item.id dsGive3.items
      ({ match_pair_id := 1, i1 := 1, i2 := 2, visit_count := 1, winner := none,
         judge_id := some 7, odd_seed_self := false } : MatchPair).i2).isSome :=
  C10_match_item_lookups_succeed dsGive3_reachable _ (by decide)

end RankerService
